import Mathlib

/-!
Verification of the obsidian-publish-downloader crawl-and-archive core.

The TypeScript sources are shallowly embedded:
* JS strings are modelled as `List Char` (`JStr`), with the JS string
  operations used by the source (`trim`, `toLowerCase`, `split`,
  `startsWith`, `parseInt`) reimplemented over that model.
* `new URL(...)` is modelled by `parseURL`, a simplified WHATWG parser
  covering the scheme/host/pathname/search/hash components the source reads.
* Network fetches and the Redis store are modelled by explicit parameters
  (`Option`-valued fetch functions, an association-list store): the code's
  behaviour on every possible response is captured by quantifying over them.
-/

/-- A JS string, modelled as its sequence of characters. -/
abbrev JStr := List Char

/-- Whitespace as recognised by JS `String.prototype.trim`
(the ASCII part, which is all the sources ever feed it). -/
def jsWhitespace (c : Char) : Bool :=
  c = ' ' ∨ c = '\t' ∨ c = '\n' ∨ c = '\r' ∨ c = '\x0b' ∨ c = '\x0c'

/-- JS `s.trim()`. -/
def jsTrim (s : JStr) : JStr :=
  ((s.dropWhile jsWhitespace).reverse.dropWhile jsWhitespace).reverse

/-- JS `s.toLowerCase()` (ASCII case mapping, which covers the directive
keywords the robots parser compares against). -/
def jsToLower (s : JStr) : JStr :=
  s.map Char.toLower

/-- JS `s.startsWith(pat)`. -/
def jsStartsWith (pat s : JStr) : Bool :=
  match pat, s with
  | [], _ => true
  | _ :: _, [] => false
  | p :: ps, c :: cs => p = c && jsStartsWith ps cs

/-- JS `s.endsWith(pat)`. -/
def jsEndsWith (pat s : JStr) : Bool :=
  jsStartsWith pat.reverse s.reverse

/-- JS `s.split(sep)` for a single-character separator.  Like in JS, the
result is never empty and splitting the empty string yields `[""]`. -/
def jsSplit (sep : Char) : JStr → List JStr
  | [] => [[]]
  | c :: rest =>
    if c = sep then [] :: jsSplit sep rest
    else
      match jsSplit sep rest with
      | [] => [[c]]
      | p :: ps => (c :: p) :: ps

/-- Numeric value of a digit string. -/
def digitsVal (ds : JStr) : Nat :=
  ds.foldl (fun n c => n * 10 + (c.toNat - '0'.toNat)) 0

/-- JS `parseInt(s)` (radix 10): optional sign, then a maximal digit run;
`none` models the `NaN` result. -/
def jsParseInt (s : JStr) : Option Int :=
  let t := s.dropWhile jsWhitespace
  let (sign, rest) :=
    if jsStartsWith ['-'] t then ((-1 : Int), t.drop 1)
    else if jsStartsWith ['+'] t then ((1 : Int), t.drop 1)
    else ((1 : Int), t)
  let ds := rest.takeWhile Char.isDigit
  if ds = [] then none else some (sign * (digitsVal ds : Int))

/-- Decimal representation of a natural number (for the template strings
that interpolate counts). -/
def natToStr (n : Nat) : JStr :=
  Nat.toDigits 10 n

/-! ## URL model

A simplified model of the WHATWG `URL` class: `scheme://host` followed by
pathname, search and hash components.  This covers exactly the fields the
source reads (`hostname`, `pathname`, `hash`, `search`, `toString`). -/

structure URLRec where
  scheme : JStr
  host : JStr
  pathname : JStr
  search : JStr
  hash : JStr
deriving DecidableEq

/-- Model of `new URL(s)`: `none` models the constructor throwing. -/
def parseURL (s : JStr) : Option URLRec :=
  let scheme := s.takeWhile (fun c => ¬ c = ':' ∧ ¬ c = '/')
  let rest := s.drop scheme.length
  if scheme = [] then none
  else if ¬ jsStartsWith "://".toList rest then none
  else
    let rest2 := rest.drop 3
    let host := rest2.takeWhile (fun c => ¬ c = '/' ∧ ¬ c = '?' ∧ ¬ c = '#')
    if host = [] then none
    else
      let rest3 := rest2.drop host.length
      let path := rest3.takeWhile (fun c => ¬ c = '?' ∧ ¬ c = '#')
      let rest4 := rest3.drop path.length
      let search := rest4.takeWhile (fun c => ¬ c = '#')
      let hash := rest4.drop search.length
      some { scheme := scheme
             host := jsToLower host
             pathname := if path = [] then "/".toList else path
             search := search
             hash := hash }

/-- Model of `url.toString()`. -/
def urlToString (u : URLRec) : JStr :=
  u.scheme ++ "://".toList ++ u.host ++ u.pathname ++ u.search ++ u.hash

/-- The hostname a string parses to, when it parses at all. -/
def hostOf (s : JStr) : Option JStr :=
  (parseURL s).map URLRec.host

/-- The only origin the crawler is allowed to touch. -/
def publishHost : JStr := "publish.obsidian.md".toList

/-! ## src/lib/utils.ts -/

/-- `validateObsidianUrl` from src/lib/utils.ts: the URL must parse and its
hostname must be `publish.obsidian.md`. -/
def validateObsidianUrl (url : JStr) : Bool :=
  match parseURL url with
  | some p => p.host = publishHost
  | none => false

/-- `extractVaultId` from src/lib/utils.ts:
`new URL(url).pathname.split('/')[1] || ''`; `none` models the `URL`
constructor throwing on an unparsable input. -/
def extractVaultId (url : JStr) : Option JStr :=
  match parseURL url with
  | some p => some (((jsSplit '/' p.pathname).get? 1).getD [])
  | none => none

/-- `isVaultBlocked` from src/lib/utils.ts: membership of the vault id in
the `blocked_vaults` set (modelled as the list of its members). -/
def isVaultBlocked (blocked : List JStr) (vaultId : JStr) : Bool :=
  vaultId ∈ blocked

/-! ## validateAndCleanUrl (src/app/api/download/route.ts, lines 31-53) -/

/-- `validateAndCleanUrl`: parse, require host `publish.obsidian.md`, drop
hash and search, reject a bare root path, and return the re-serialised URL. -/
def validateAndCleanUrl (url : JStr) : Option JStr :=
  match parseURL url with
  | none => none
  | some parsed =>
    if ¬ parsed.host = publishHost then none
    else
      let cleaned := { parsed with hash := [], search := [] }
      if cleaned.pathname = "/".toList ∨ cleaned.pathname = [] then none
      else some (urlToString cleaned)

/-! ## checkRobotsAdvanced (src/app/api/download/route.ts, lines 56-115)

The parsing loop keeps three mutable variables: `userAgentMatch`,
`allowed` and `crawlDelay`. -/

structure RobotsState where
  uaMatch : Bool
  allowed : Bool
  crawlDelay : Int
deriving DecidableEq

/-- The crawler's own agent token, lowercased as the comparison site is. -/
def crawlerAgentToken : JStr := "obsidiandownloader".toList

/-- The two directive branches guarded by `userAgentMatch` in the loop body
(lines 94-108). -/
def robotsDirectives (st : RobotsState) (line : JStr) : RobotsState :=
  let st1 :=
    if st.uaMatch && jsStartsWith "disallow:".toList line then
      let path := ((jsSplit ':' line).get? 1).map jsTrim
      if path = some "/".toList ∨ path = some [] then
        { st with allowed := false }
      else st
    else st
  if st1.uaMatch && jsStartsWith "crawl-delay:".toList line then
    let raw := (((jsSplit ':' line).get? 1).map jsTrim).getD []
    let str := if raw = [] then "1".toList else raw
    match jsParseInt str with
    | some d => { st1 with crawlDelay := max (d * 1000) 500 }
    | none => st1
  else st1

/-- One iteration of the parsing loop (lines 84-109): lowercase the line,
update `userAgentMatch` on a `user-agent:` directive (and `continue`),
otherwise run the guarded directive branches. -/
def robotsStep (st : RobotsState) (rawLine : JStr) : RobotsState :=
  let line := jsToLower rawLine
  if jsStartsWith "user-agent:".toList line then
    let agent := ((jsSplit ':' line).get? 1).map jsTrim
    { st with uaMatch :=
        (agent == some "*".toList) || (agent == some crawlerAgentToken) }
  else
    robotsDirectives st line

/-- Initial parser state (lines 80-82). -/
def robotsInit : RobotsState :=
  { uaMatch := false, allowed := true, crawlDelay := 1000 }

/-- The whole parse of a robots.txt body: split on newlines, trim each
line, fold the loop body, and return `(allowed, crawlDelay)`. -/
def parseRobotsLines (lines : List JStr) : Bool × Int :=
  let st := (lines.map jsTrim).foldl robotsStep robotsInit
  (st.allowed, st.crawlDelay)

/-- `checkRobotsAdvanced` applied to a successfully fetched body. -/
def parseRobotsText (text : JStr) : Bool × Int :=
  parseRobotsLines (jsSplit '\n' text)

/-- `checkRobotsAdvanced`: `none` models every non-success outcome of the
robots.txt fetch (unreachable, non-2xx, timeout, thrown error), all of
which return the `(true, 1000)` default. -/
def checkRobotsAdvanced (resp : Option JStr) : Bool × Int :=
  match resp with
  | none => (true, 1000)
  | some text => parseRobotsText text

/-- Modelled from the spec: section 4.1 describes group evaluation as
"Last applicable group wins if multiple groups match (directives are
evaluated in document order, state reset implicitly when a new agent group
starts)".  The source file src/app/api/download/route.ts has no such
reset; this variant, which reinitialises the per-group state whenever a
new applicable agent group starts, exists only to compare the source's
evaluator against the spec's words. -/
def robotsStepReset (st : RobotsState) (rawLine : JStr) : RobotsState :=
  let line := jsToLower rawLine
  if jsStartsWith "user-agent:".toList line then
    let agent := ((jsSplit ':' line).get? 1).map jsTrim
    if (agent == some "*".toList) || (agent == some crawlerAgentToken) then
      { uaMatch := true, allowed := true, crawlDelay := 1000 }
    else
      { st with uaMatch := false }
  else
    robotsDirectives st line

/-- The reset-at-group-start evaluation of a robots.txt body, per the
spec's words (see `robotsStepReset`). -/
def parseRobotsTextReset (text : JStr) : Bool × Int :=
  let st := ((jsSplit '\n' text).map jsTrim).foldl robotsStepReset robotsInit
  (st.allowed, st.crawlDelay)

/-! ## Ephemeral artifact store (download retrieval route, src/unnamed/part_001)

Redis keys `download:<id>` carrying a TTL are modelled as entries
`(id, payload, expiresAt)`.  `redis.get` yields nothing for an absent or
expired key; `redis.del` removes the key.  Calls are modelled at explicit
times so that TTL expiry is part of the model. -/

structure StoreEntry where
  id : JStr
  payload : JStr
  expiresAt : Nat
deriving DecidableEq

/-- Model of `redis.get` at time `t`. -/
def redisGet (store : List StoreEntry) (t : Nat) (id : JStr) : Option JStr :=
  match store.find? (fun e => e.id == id) with
  | some e => if t < e.expiresAt then some e.payload else none
  | none => none

/-- Model of `redis.del`. -/
def redisDel (store : List StoreEntry) (id : JStr) : List StoreEntry :=
  store.filter (fun e => ¬ e.id == id)

/-- The GET handler of the retrieval route: read `download:<id>`; a missing
or expired key is answered NotFound with the store untouched; otherwise the
payload is served and the key deleted before the response goes out. -/
def downloadGET (store : List StoreEntry) (t : Nat) (id : JStr) :
    Option JStr × List StoreEntry :=
  match redisGet store t id with
  | none => (none, store)
  | some payload => (some payload, redisDel store id)

/-- A sequence of retrieval calls for one id at the given times, threading
the store state; returns the per-call results in order. -/
def runGets (store : List StoreEntry) (id : JStr) : List Nat → List (Option JStr)
  | [] => []
  | t :: ts =>
    let r := downloadGET store t id
    r.1 :: runGets r.2 id ts

/-! ## Report route (src/unnamed/part_000, POST handler) -/

inductive ReportReason
  | owner
  | copyright
  | privacy
  | other
deriving DecidableEq

structure ReportBody where
  vaultUrl : JStr
  email : JStr
  reason : ReportReason
  details : JStr
  verificationUrl : Option JStr
deriving DecidableEq

/-- The shape checks `reportSchema.parse` performs.  The `z.string().url()`
and `z.string().email()` validators live inside the zod library; they are
modelled at their boundary as the URL parsing and the email containing an
`@`, which is all the claims about this route rely on. -/
def reportSchemaOk (r : ReportBody) : Bool :=
  (parseURL r.vaultUrl).isSome &&
  r.email.contains '@' &&
  (10 ≤ r.details.length && r.details.length ≤ 1000) &&
  (match r.verificationUrl with
   | some v => (parseURL v).isSome
   | none => true)

inductive ReportOutcome
  | invalidInput
  | invalidVault
  | serverError
  | submitted
deriving DecidableEq

/-- Model of `redis.sadd('blocked_vaults', v)`. -/
def saddVault (blocked : List JStr) (v : JStr) : List JStr :=
  if v ∈ blocked then blocked else v :: blocked

/-- The POST handler of the report route (src/unnamed/part_000, lines
152-201): parse and validate the body, extract the vault id, and — when
the reason is `owner` — add the vault to the `blocked_vaults` set before
the report ticket is stored for review.  Returns the response outcome and
the resulting blocked set. -/
def reportPOST (body : Option ReportBody) (blocked : List JStr) :
    ReportOutcome × List JStr :=
  match body with
  | none => (.invalidInput, blocked)
  | some data =>
    if reportSchemaOk data = false then (.invalidInput, blocked)
    else
      match extractVaultId data.vaultUrl with
      | none => (.serverError, blocked)
      | some vaultId =>
        if vaultId = [] then (.invalidVault, blocked)
        else
          let blocked' :=
            if data.reason = ReportReason.owner then saddVault blocked vaultId
            else blocked
          (.submitted, blocked')

/-! ## extractLinks (src/app/api/download/route.ts, lines 174-208) -/

/-- The directory part of a pathname: everything up to and including the
last slash, used for resolving page-relative hrefs. -/
def dirOf (p : JStr) : JStr :=
  (p.reverse.dropWhile (fun c => ¬ c = '/')).reverse

/-- Resolution of one anchor href against the current page URL (lines
182-194): a root-relative href joins the base origin, an href starting
with `http` is taken as absolute, and anything else is resolved against
the base directory.  `none` models the `URL` constructor throwing, which
skips the link. -/
def resolveHref (baseUrl href : JStr) : Option JStr :=
  if jsStartsWith "/".toList href then
    (parseURL baseUrl).map (fun b => b.scheme ++ "://".toList ++ b.host ++ href)
  else if jsStartsWith "http".toList href then
    some href
  else
    (parseURL baseUrl).map (fun b =>
      b.scheme ++ "://".toList ++ b.host ++ dirOf b.pathname ++ href)

/-- First-occurrence deduplication, the iteration order of `new Set`. -/
def dedupKeepFirst : List JStr → List JStr
  | [] => []
  | u :: rest => u :: (dedupKeepFirst rest).filter (fun v => ¬ v = u)

/-- `extractLinks`: resolve each href of the document, keep only URLs whose
parsed hostname is exactly `publish.obsidian.md`, and deduplicate.  The
document is represented by the list of the hrefs of its anchors, which is
exactly what the source reads from it. -/
def extractLinks (hrefs : List JStr) (baseUrl : JStr) : List JStr :=
  dedupKeepFirst
    ((hrefs.filterMap (resolveHref baseUrl)).filter
      (fun u => hostOf u == some publishHost))

/-! ## fetchVaultData (src/app/api/download/route.ts, lines 351-429)

The two network interactions of the loop body are the page-content fetch
(`fetchPageContent`, returning extracted content and title or `null`) and
the second fetch used for link extraction; they are modelled by the
parameters `fetchPage` and `fetchDoc`, the latter returning the hrefs of
the fetched document's anchors (`none` models any failure of that fetch).
Wall-clock readings (`new Date().toISOString()`) are modelled by the
parameter `now`; no claim depends on their values.  The pending array
`toVisit` is a JS stack (`push`/`pop` at the end); it is modelled with its
top at the head of the list. -/

structure PageData where
  content : JStr
  title : JStr
deriving DecidableEq

structure PageRec where
  content : JStr
  title : JStr
  url : JStr
  crawledAt : JStr
deriving DecidableEq

/-- The page ceiling (`maxPages`, line 359). -/
def maxPages : Nat := 500

/-- JS `Map.set`: an existing key is updated in place, a new key appends. -/
def mapSet (m : List (JStr × PageRec)) (k : JStr) (v : PageRec) :
    List (JStr × PageRec) :=
  if m.any (fun e => e.1 == k) then
    m.map (fun e => if e.1 == k then (k, v) else e)
  else m ++ [(k, v)]

/-- File-path assignment (lines 383-385): the URL's pathname with one
leading and one trailing slash stripped, `index` when empty, with `.md`
appended unless already present. -/
def fileNameOf (currentUrl : JStr) : JStr :=
  let urlPath := ((parseURL currentUrl).map URLRec.pathname).getD []
  let p1 := if jsStartsWith "/".toList urlPath then urlPath.drop 1 else urlPath
  let p2 := if jsEndsWith "/".toList p1 then p1.take (p1.length - 1) else p1
  let cleanPath := if p2 = [] then "index".toList else p2
  if jsEndsWith ".md".toList cleanPath then cleanPath
  else cleanPath ++ ".md".toList

/-- The link-enqueueing loop (lines 415-419): push a link only if it is
neither visited nor already pending. -/
def pushLinks (visited stack links : List JStr) : List JStr :=
  links.foldl (fun s l => if l ∈ visited ∨ l ∈ s then s else l :: s) stack

/-- One progress value as computed on line 371:
`(pageCount / Math.max(pageCount + toVisit.length, 1)) * 100`, in exact
rational arithmetic. -/
def progressOf (pageCount pending : Nat) : ℚ :=
  ((pageCount : ℚ) / ((max (pageCount + pending) 1 : Nat) : ℚ)) * 100

/-- The result of a crawl: the visited set, the page map, the sequence of
progress callbacks `(value, message)` issued, and the number of loop
iterations executed. -/
structure CrawlResult where
  visited : List JStr
  vault : List (JStr × PageRec)
  events : List (ℚ × JStr)
  steps : Nat
deriving DecidableEq

/-- The crawl loop (lines 364-425).  Each iteration pops the most recently
discovered URL, skips it when already visited, marks it visited, reports
progress, fetches and records the page (a failed fetch is absorbed), and —
while under the ceiling — extracts and enqueues fresh same-origin links.
Termination is by the lexicographic measure
`(maxPages - pageCount, toVisit.length)`: an iteration either grows the
visited count towards the ceiling or shortens the pending stack. -/
def crawlLoop (fetchPage : JStr → Option PageData)
    (fetchDoc : JStr → Option (List JStr)) (now : JStr)
    (visited toVisit : List JStr) (pageCount : Nat)
    (vault : List (JStr × PageRec)) (events : List (ℚ × JStr)) (steps : Nat) :
    CrawlResult :=
  match toVisit with
  | [] => ⟨visited, vault, events, steps⟩
  | currentUrl :: rest =>
    if _h : pageCount < maxPages then
      if currentUrl ∈ visited then
        crawlLoop fetchPage fetchDoc now visited rest pageCount vault events
          (steps + 1)
      else
        let visited' := currentUrl :: visited
        let pc := pageCount + 1
        let events' := events ++
          [(progressOf pc rest.length,
            "Processing page ".toList ++ natToStr pc ++ "...".toList)]
        match fetchPage currentUrl with
        | none =>
          crawlLoop fetchPage fetchDoc now visited' rest pc vault events'
            (steps + 1)
        | some pageData =>
          let vault' := mapSet vault (fileNameOf currentUrl)
            ⟨pageData.content, pageData.title, currentUrl, now⟩
          if pc < maxPages then
            match fetchDoc currentUrl with
            | none =>
              crawlLoop fetchPage fetchDoc now visited' rest pc vault' events'
                (steps + 1)
            | some hrefs =>
              crawlLoop fetchPage fetchDoc now visited'
                (pushLinks visited' rest (extractLinks hrefs currentUrl)) pc
                vault' events' (steps + 1)
          else
            crawlLoop fetchPage fetchDoc now visited' rest pc vault' events'
              (steps + 1)
    else ⟨visited, vault, events, steps⟩
termination_by (maxPages - pageCount, toVisit.length)
decreasing_by
  · apply Prod.Lex.right; simp
  · apply Prod.Lex.left; omega
  · apply Prod.Lex.left; omega
  · apply Prod.Lex.left; omega
  · apply Prod.Lex.left; omega

/-- `fetchVaultData`: the initial and final progress callbacks around the
crawl loop (lines 362 and 427). -/
def fetchVaultData (fetchPage : JStr → Option PageData)
    (fetchDoc : JStr → Option (List JStr)) (now startUrl : JStr) : CrawlResult :=
  let r := crawlLoop fetchPage fetchDoc now [] [startUrl] 0 [] 
    [((0 : ℚ), "Discovering pages...".toList)] 0
  { r with events := r.events ++
      [((100 : ℚ),
        "Discovered ".toList ++ natToStr r.vault.length ++ " pages".toList)] }

/-- A fuel-indexed twin of `crawlLoop` with identical branch structure,
used to evaluate concrete crawls: structural recursion on the fuel lets
the kernel compute it, and `crawlFuel_sound` transports the value to
`crawlLoop`. -/
def crawlFuel (fetchPage : JStr → Option PageData)
    (fetchDoc : JStr → Option (List JStr)) (now : JStr) (fuel : Nat)
    (visited toVisit : List JStr) (pageCount : Nat)
    (vault : List (JStr × PageRec)) (events : List (ℚ × JStr)) (steps : Nat) :
    Option CrawlResult :=
  match fuel with
  | 0 => none
  | fuel' + 1 =>
    match toVisit with
    | [] => some ⟨visited, vault, events, steps⟩
    | currentUrl :: rest =>
      if pageCount < maxPages then
        if currentUrl ∈ visited then
          crawlFuel fetchPage fetchDoc now fuel' visited rest pageCount vault
            events (steps + 1)
        else
          let visited' := currentUrl :: visited
          let pc := pageCount + 1
          let events' := events ++
            [(progressOf pc rest.length,
              "Processing page ".toList ++ natToStr pc ++ "...".toList)]
          match fetchPage currentUrl with
          | none =>
            crawlFuel fetchPage fetchDoc now fuel' visited' rest pc vault
              events' (steps + 1)
          | some pageData =>
            let vault' := mapSet vault (fileNameOf currentUrl)
              ⟨pageData.content, pageData.title, currentUrl, now⟩
            if pc < maxPages then
              match fetchDoc currentUrl with
              | none =>
                crawlFuel fetchPage fetchDoc now fuel' visited' rest pc vault'
                  events' (steps + 1)
              | some hrefs =>
                crawlFuel fetchPage fetchDoc now fuel' visited'
                  (pushLinks visited' rest (extractLinks hrefs currentUrl)) pc
                  vault' events' (steps + 1)
            else
              crawlFuel fetchPage fetchDoc now fuel' visited' rest pc vault'
                events' (steps + 1)
      else some ⟨visited, vault, events, steps⟩

/-! ## Progress stream (src/app/api/download/route.ts, lines 260-349) -/

inductive StreamEvent
  | progress (value : Int) (message : JStr)
  | complete (downloadId : JStr) (totalPages : Nat) (archiveSize : JStr)
  | error (message : JStr)
deriving DecidableEq

/-- The value written for a crawl progress callback (line 273):
`5 + Math.floor(progress * 0.7)`, scaling the crawl's 0-100 range into
5-75.  JS numbers are binary doubles; the model computes the same
expression in exact rational arithmetic. -/
def innerValue (p : ℚ) : Int :=
  5 + Int.floor (p * (7 / 10))

/-- The event sequence the POST stream writes for one run (lines 260-332):
an opening progress event, one progress event per crawl callback, then
either the empty-vault error or the 80/95/100 progress events followed by
the single `complete` event.  The `catch` writes the error event and
`finally` closes the stream, so nothing follows the terminal event.  The
byte length of the zip output of `archiver` is not derivable in the model
and enters as the parameter `archiveKB` (line 319 renders it rounded to
kilobytes). -/
def streamEvents (fetchPage : JStr → Option PageData)
    (fetchDoc : JStr → Option (List JStr)) (now startUrl downloadId : JStr)
    (archiveKB : Nat) : List StreamEvent :=
  let r := fetchVaultData fetchPage fetchDoc now startUrl
  StreamEvent.progress 5 "Starting vault discovery...".toList ::
  r.events.map (fun e => StreamEvent.progress (innerValue e.1) e.2) ++
  (if r.vault.length = 0 then
    [StreamEvent.error "No content found in vault".toList]
  else
    [StreamEvent.progress 80 "Creating archive...".toList,
     StreamEvent.progress 95 "Preparing download...".toList,
     StreamEvent.progress 100 "Complete!".toList,
     StreamEvent.complete downloadId r.vault.length
       (natToStr archiveKB ++ " KB".toList)])

/-- The values of the progress events of a stream, in order. -/
def progressValues (events : List StreamEvent) : List Int :=
  events.filterMap (fun e =>
    match e with
    | .progress v _ => some v
    | _ => none)

/-- Whether a list of values never decreases from one element to the next. -/
def nonDecreasing : List Int → Bool
  | [] => true
  | [_] => true
  | a :: b :: rest => a ≤ b && nonDecreasing (b :: rest)

def isProgress : StreamEvent → Bool
  | .progress _ _ => true
  | _ => false

def isTerminal : StreamEvent → Bool
  | .complete _ _ _ => true
  | .error _ => true
  | _ => false

/-! ## The POST handler (src/app/api/download/route.ts, lines 210-348)

The handler's interactions with the shared stores are recorded in the
order they are performed, so that "the rate limiter is never consulted"
is a statement about the recorded trace. -/

inductive PostEffect
  | blockedCheck
  | rateLimitCheck
  | consentLog
  | robotsFetch
  | runCrawl
deriving DecidableEq

inductive PostOutcome
  | badRequest
  | consentRequired
  | invalidUrl
  | noVaultId
  | blockedVault
  | rateLimited
  | robotsDenied
  | streamed (events : List StreamEvent)
deriving DecidableEq

structure RunRequest where
  url : JStr
  consent : Bool
  timestamp : JStr
deriving DecidableEq

/-- The POST handler up to and including stream creation.  `body` is the
parsed request (`none` models a JSON or schema failure), `blocked` the
`blocked_vaults` set, `rlSuccess` the rate limiter's verdict for this
requester, `robotsResp` the robots.txt fetch outcome.  The crawl delay
returned by `checkRobotsAdvanced` only paces fetches and has no observable
effect in the model. -/
def downloadPOST (body : Option RunRequest) (blocked : List JStr)
    (rlSuccess : Bool) (robotsResp : Option JStr)
    (fetchPage : JStr → Option PageData)
    (fetchDoc : JStr → Option (List JStr)) (now downloadId : JStr)
    (archiveKB : Nat) : PostOutcome × List PostEffect :=
  match body with
  | none => (.badRequest, [])
  | some req =>
    if req.consent = false then (.consentRequired, [])
    else
      match validateAndCleanUrl req.url with
      | none => (.invalidUrl, [])
      | some cleanUrl =>
        match extractVaultId cleanUrl with
        | none => (.badRequest, [])
        | some vaultId =>
          if vaultId = [] then (.noVaultId, [])
          else if isVaultBlocked blocked vaultId then
            (.blockedVault, [.blockedCheck])
          else if rlSuccess = false then
            (.rateLimited, [.blockedCheck, .rateLimitCheck])
          else if (checkRobotsAdvanced robotsResp).1 = false then
            (.robotsDenied, [.blockedCheck, .rateLimitCheck, .consentLog,
              .robotsFetch])
          else
            (.streamed (streamEvents fetchPage fetchDoc now cleanUrl
                downloadId archiveKB),
             [.blockedCheck, .rateLimitCheck, .consentLog, .robotsFetch,
              .runCrawl])

/-! ## createArchive (src/app/api/download/route.ts, lines 431-507)

The zip container is modelled as its comment and its ordered entry list
(name, body); `JSON.stringify(metadata, null, 2)` is modelled by a JSON
serialiser with the same escaping and two-space indentation. -/

inductive JVal where
  | jstr (s : JStr)
  | jnat (n : Nat)
  | jarr (vs : List JVal)
  | jobj (fields : List (JStr × JVal))

/-- Hexadecimal digit, for JSON control-character escapes. -/
def hexDigit (n : Nat) : Char :=
  if n < 10 then Char.ofNat ('0'.toNat + n)
  else Char.ofNat ('a'.toNat + (n - 10))

/-- The escaping `JSON.stringify` applies inside a string literal. -/
def jsonEscapeChar (c : Char) : JStr :=
  if c = '"' then ['\\', '"']
  else if c = '\\' then ['\\', '\\']
  else if c = '\n' then ['\\', 'n']
  else if c = '\r' then ['\\', 'r']
  else if c = '\t' then ['\\', 't']
  else if c = '\x08' then ['\\', 'b']
  else if c = '\x0c' then ['\\', 'f']
  else if c.toNat < 32 then
    ['\\', 'u', '0', '0', hexDigit (c.toNat / 16), hexDigit (c.toNat % 16)]
  else [c]

def jsonEscape (s : JStr) : JStr :=
  s.foldr (fun c acc => jsonEscapeChar c ++ acc) []

/-- Indentation of `JSON.stringify(v, null, 2)` at nesting depth `d`. -/
def jsonIndent (d : Nat) : JStr :=
  List.replicate (2 * d) ' '

def joinSep (sep : JStr) : List JStr → JStr
  | [] => []
  | [x] => x
  | x :: y :: rest => x ++ sep ++ joinSep sep (y :: rest)

mutual

/-- `JSON.stringify(v, null, 2)` at nesting depth `d`. -/
def jsonStr : Nat → JVal → JStr
  | _, .jstr s => '"' :: (jsonEscape s ++ ['"'])
  | _, .jnat n => natToStr n
  | d, .jarr vs =>
    match vs with
    | [] => "[]".toList
    | _ :: _ =>
      "[\n".toList ++ joinSep ",\n".toList (jsonArr (d + 1) vs) ++
      "\n".toList ++ jsonIndent d ++ "]".toList
  | d, .jobj fs =>
    match fs with
    | [] => "\x7b\x7d".toList
    | _ :: _ =>
      "\x7b\n".toList ++ joinSep ",\n".toList (jsonObj (d + 1) fs) ++
      "\n".toList ++ jsonIndent d ++ "\x7d".toList

/-- The rendered elements of an array, each on its own indented line. -/
def jsonArr : Nat → List JVal → List JStr
  | _, [] => []
  | d, v :: vs => (jsonIndent d ++ jsonStr d v) :: jsonArr d vs

/-- The rendered fields of an object, each on its own indented line. -/
def jsonObj : Nat → List (JStr × JVal) → List JStr
  | _, [] => []
  | d, (k, v) :: fs =>
    (jsonIndent d ++ ('"' :: (jsonEscape k ++ "\": ".toList)) ++ jsonStr d v)
      :: jsonObj d fs

end

/-- One element of the manifest's `pages` array (lines 454-459). -/
def pageMetaJ (e : JStr × PageRec) : JVal :=
  .jobj [("path".toList, .jstr e.1),
         ("title".toList, .jstr e.2.title),
         ("url".toList, .jstr e.2.url),
         ("crawled_at".toList, .jstr e.2.crawledAt)]

/-- The manifest object (lines 447-460); `now` models
`new Date().toISOString()`. -/
def metadataJ (vd : List (JStr × PageRec)) (vaultId now : JStr) : JVal :=
  .jobj [("vault_id".toList, .jstr vaultId),
         ("download_date".toList, .jstr now),
         ("total_pages".toList, .jnat vd.length),
         ("downloader".toList, .jstr "ObsidianDownloader/1.0".toList),
         ("source".toList, .jstr "https://obsidian.strahil.dev".toList),
         ("notice".toList, .jstr "This archive was created for personal/offline use only. Please respect copyright and licensing.".toList),
         ("pages".toList, .jarr (vd.map pageMetaJ))]

/-- The README template (lines 465-483) up to its first interpolation,
`${vaultData.size}`. -/
def readmeHead : JStr :=
  "# Obsidian Vault Archive\n\nThis archive contains a backup of an Obsidian Publish vault.\n\n## Contents\n- ".toList

/-- The README template between `${vaultData.size}` and
`${new Date().toISOString()}`. -/
def readmeMid : JStr :=
  " pages in Markdown format\n- vault-metadata.json: Archive information and page index\n\n## Usage\nExtract this archive and open the folder in Obsidian as a vault.\n\n## Legal Notice\nThis archive was created in compliance with applicable laws and website terms of service.\nIf you are the original content owner and wish to request removal, please contact:\nhttps://obsidian.strahil.dev/api/report\n\nGenerated on: ".toList

/-- The README template after its last interpolation. -/
def readmeTail : JStr :=
  "\nSource: https://obsidian.strahil.dev\n".toList

/-- The README template (lines 465-483): the three fixed parts around the
interpolations `${vaultData.size}` and `${new Date().toISOString()}`. -/
def readmeText (n : Nat) (now : JStr) : JStr :=
  readmeHead ++ natToStr n ++ readmeMid ++ now ++ readmeTail

/-- The `replace(/"/g, '\\"')` applied to the title (line 494). -/
def escQuotes (s : JStr) : JStr :=
  s.foldr (fun c acc => if c = '"' then '\\' :: '"' :: acc else c :: acc) []

/-- The frontmatter header prepended to each page (lines 493-500). -/
def frontmatter (r : PageRec) : JStr :=
  "---\ntitle: \"".toList ++ escQuotes r.title
  ++ "\"\nsource_url: \"".toList ++ r.url
  ++ "\"\narchived_at: \"".toList ++ r.crawledAt
  ++ "\"\n---\n\n".toList

structure ArchiveOut where
  comment : JStr
  entries : List (JStr × JStr)
deriving DecidableEq

/-- `createArchive`: the zip comment, the manifest entry, the README entry
and one entry per page in map order, each page prefixed with its
frontmatter. -/
def createArchive (vd : List (JStr × PageRec)) (vaultId now : JStr) :
    ArchiveOut :=
  { comment :=
      "Obsidian Vault Archive - Downloaded from https://publish.obsidian.md/".toList
        ++ vaultId
    entries :=
      ("vault-metadata.json".toList, jsonStr 0 (metadataJ vd vaultId now)) ::
      ("README.md".toList, readmeText vd.length now) ::
      vd.map (fun e => (e.1, frontmatter e.2 ++ e.2.content)) }

/-! ## Helper lemmas about the robots.txt evaluator -/

theorem robotsDirectives_uaMatch (st : RobotsState) (line : JStr) :
    (robotsDirectives st line).uaMatch = st.uaMatch := by
  simp only [robotsDirectives]
  repeat' split
  all_goals simp

theorem robotsDirectives_allowed_false (st : RobotsState) (line : JStr)
    (h : st.allowed = false) : (robotsDirectives st line).allowed = false := by
  simp only [robotsDirectives]
  repeat' split
  all_goals simp [h]

theorem robotsDirectives_delay_ge (st : RobotsState) (line : JStr)
    (h : 500 ≤ st.crawlDelay) : 500 ≤ (robotsDirectives st line).crawlDelay := by
  simp only [robotsDirectives]
  repeat' split
  all_goals simp [h]

theorem robotsStep_uaMatch_of_not_ua (st : RobotsState) (l : JStr)
    (h : jsStartsWith "user-agent:".toList (jsToLower l) = false) :
    (robotsStep st l).uaMatch = st.uaMatch := by
  simp only [robotsStep, h]
  simp only [Bool.false_eq_true, if_false]
  exact robotsDirectives_uaMatch st (jsToLower l)

theorem robotsStep_allowed_false (st : RobotsState) (l : JStr)
    (h : st.allowed = false) : (robotsStep st l).allowed = false := by
  simp only [robotsStep]
  split
  · simp [h]
  · exact robotsDirectives_allowed_false st (jsToLower l) h

theorem robotsStep_delay_ge (st : RobotsState) (l : JStr)
    (h : 500 ≤ st.crawlDelay) : 500 ≤ (robotsStep st l).crawlDelay := by
  simp only [robotsStep]
  split
  · simp [h]
  · exact robotsDirectives_delay_ge st (jsToLower l) h

theorem foldl_robotsStep_allowed_false (lines : List JStr) (st : RobotsState)
    (h : st.allowed = false) : (lines.foldl robotsStep st).allowed = false := by
  induction lines generalizing st with
  | nil => exact h
  | cons l ls ih => exact ih _ (robotsStep_allowed_false _ _ h)

theorem foldl_robotsStep_delay_ge (lines : List JStr) (st : RobotsState)
    (h : 500 ≤ st.crawlDelay) : 500 ≤ (lines.foldl robotsStep st).crawlDelay := by
  induction lines generalizing st with
  | nil => exact h
  | cons l ls ih => exact ih _ (robotsStep_delay_ge _ _ h)

theorem foldl_robotsStep_uaMatch (lines : List JStr) (st : RobotsState)
    (h : ∀ l ∈ lines,
      jsStartsWith "user-agent:".toList (jsToLower (jsTrim l)) = false) :
    ((lines.map jsTrim).foldl robotsStep st).uaMatch = st.uaMatch := by
  induction lines generalizing st with
  | nil => rfl
  | cons l ls ih =>
    simp only [List.map_cons, List.foldl_cons]
    rw [ih _ (fun x hx => h x (List.mem_cons_of_mem _ hx)),
      robotsStep_uaMatch_of_not_ua _ _ (h l (List.mem_cons_self _ _))]

theorem robotsStep_uaStar (st : RobotsState) :
    robotsStep st ("user-agent: *".toList) = { st with uaMatch := true } := by
  cases st
  rfl

theorem robotsStep_disallowRoot (st : RobotsState) (h : st.uaMatch = true) :
    robotsStep st ("disallow: /".toList) = { st with allowed := false } := by
  cases st with
  | mk u a d =>
    cases u
    · exact Bool.noConfusion h
    · rfl

theorem robotsStep_disallowEmpty (st : RobotsState) (h : st.uaMatch = true) :
    robotsStep st ("disallow:".toList) = { st with allowed := false } := by
  cases st with
  | mk u a d =>
    cases u
    · exact Bool.noConfusion h
    · rfl

theorem digit_not_ws (c : Char) (h : c.isDigit = true) : jsWhitespace c = false := by
  revert h
  simp only [Char.isDigit, jsWhitespace]
  intro h
  rcases eq_or_ne c ' ' with rfl | h1
  · exact absurd h (by decide)
  rcases eq_or_ne c '\t' with rfl | h2
  · exact absurd h (by decide)
  rcases eq_or_ne c '\n' with rfl | h3
  · exact absurd h (by decide)
  rcases eq_or_ne c '\r' with rfl | h4
  · exact absurd h (by decide)
  rcases eq_or_ne c '\x0b' with rfl | h5
  · exact absurd h (by decide)
  rcases eq_or_ne c '\x0c' with rfl | h6
  · exact absurd h (by decide)
  simp [h1, h2, h3, h4, h5, h6]

theorem digit_toLower (c : Char) (h : c.isDigit = true) : c.toLower = c := by
  simp [Char.isDigit] at h
  simp [Char.toLower]
  intro h1 h2
  exact absurd (le_trans h1 h.2) (by decide)

theorem digit_ne_colon (c : Char) (h : c.isDigit = true) : ¬ c = ':' := by
  intro hc; subst hc; exact absurd h (by decide)

theorem digit_ne_minus (c : Char) (h : c.isDigit = true) : ¬ c = '-' := by
  intro hc; subst hc; exact absurd h (by decide)

theorem jsSplit_ne_nil (sep : Char) (s : JStr) : jsSplit sep s ≠ [] := by
  induction s with
  | nil => simp [jsSplit]
  | cons c rest ih =>
    simp only [jsSplit]
    split
    · simp
    · split
      · simp
      · simp

theorem jsSplit_no_sep (sep : Char) (s : JStr) (h : ∀ c ∈ s, ¬ c = sep) :
    jsSplit sep s = [s] := by
  induction s with
  | nil => rfl
  | cons c rest ih =>
    simp only [jsSplit]
    rw [if_neg (h c (List.mem_cons_self _ _))]
    rw [ih (fun x hx => h x (List.mem_cons_of_mem _ hx))]

theorem jsSplit_append_no_sep (sep : Char) (a b : JStr) (h : ∀ c ∈ a, ¬ c = sep) :
    jsSplit sep (a ++ b) = (a ++ (jsSplit sep b).headI) :: (jsSplit sep b).tail := by
  induction a with
  | nil =>
    simp only [List.nil_append]
    cases hb : jsSplit sep b with
    | nil => exact absurd hb (jsSplit_ne_nil sep b)
    | cons p ps => simp [hb]
  | cons c a' ih =>
    simp only [List.cons_append, jsSplit]
    rw [if_neg (h c (List.mem_cons_self _ _))]
    simp only [List.append_eq]
    rw [ih (fun x hx => h x (List.mem_cons_of_mem _ hx))]

theorem map_toLower_digits (ds : JStr) (hdig : ∀ c ∈ ds, c.isDigit = true) :
    jsToLower ds = ds := by
  unfold jsToLower
  induction ds with
  | nil => rfl
  | cons c rest ih =>
    simp only [List.map_cons]
    rw [digit_toLower c (hdig c (List.mem_cons_self _ _)),
      ih (fun x hx => hdig x (List.mem_cons_of_mem _ hx))]

theorem dropWhile_ws_digits (ds : JStr) (hdig : ∀ c ∈ ds, c.isDigit = true) :
    List.dropWhile jsWhitespace ds = ds := by
  cases ds with
  | nil => rfl
  | cons c rest =>
    rw [List.dropWhile_cons, if_neg]
    simp [digit_not_ws c (hdig c (List.mem_cons_self _ _))]

theorem jsTrim_digits_tail (a : JStr) (ds : JStr) (hne : ds ≠ [])
    (hdig : ∀ c ∈ ds, c.isDigit = true)
    (hfront : List.dropWhile jsWhitespace (a ++ ds) = a ++ ds) :
    jsTrim (a ++ ds) = a ++ ds := by
  unfold jsTrim
  rw [hfront, List.reverse_append]
  obtain ⟨d, t, hds⟩ : ∃ d t, ds.reverse = d :: t := by
    cases h : ds.reverse with
    | nil => exact absurd (List.reverse_eq_nil_iff.mp h) hne
    | cons x xs => exact ⟨x, xs, rfl⟩
  have hdmem : d ∈ ds := by
    rw [← List.mem_reverse, hds]; exact List.mem_cons_self _ _
  rw [hds, List.cons_append, List.dropWhile_cons,
    if_neg (by simp [digit_not_ws d (hdig d hdmem)])]
  rw [← List.cons_append, ← hds, ← List.reverse_append, List.reverse_reverse]

theorem jsParseInt_digits (ds : JStr) (hne : ds ≠ [])
    (hdig : ∀ c ∈ ds, c.isDigit = true) :
    jsParseInt ds = some ((digitsVal ds : Nat) : Int) := by
  obtain ⟨c, rest, rfl⟩ : ∃ c rest, ds = c :: rest := by
    cases ds with
    | nil => exact absurd rfl hne
    | cons c rest => exact ⟨c, rest, rfl⟩
  have hc := hdig c (List.mem_cons_self _ _)
  have hm : jsStartsWith ['-'] (c :: rest) = false := by
    simp [jsStartsWith]
    exact fun hcc => digit_ne_minus c hc hcc.symm
  have hp : jsStartsWith ['+'] (c :: rest) = false := by
    have h2 : ¬ c = '+' := by
      intro hcc; subst hcc; exact absurd hc (by decide)
    simp [jsStartsWith]
    exact fun hcc => h2 hcc.symm
  simp only [jsParseInt]
  rw [dropWhile_ws_digits _ hdig, hm, hp]
  simp only [Bool.false_eq_true, if_false]
  rw [List.takeWhile_eq_self_iff.mpr hdig]
  rw [if_neg (by simp)]
  simp

theorem jsTrim_cdLine (ds : JStr) (hne : ds ≠ [])
    (hdig : ∀ c ∈ ds, c.isDigit = true) :
    jsTrim ("crawl-delay: ".toList ++ ds) = "crawl-delay: ".toList ++ ds :=
  jsTrim_digits_tail _ ds hne hdig rfl

theorem jsToLower_cdLine (ds : JStr) (hdig : ∀ c ∈ ds, c.isDigit = true) :
    jsToLower ("crawl-delay: ".toList ++ ds) = "crawl-delay: ".toList ++ ds := by
  unfold jsToLower
  rw [List.map_append]
  have h1 : List.map Char.toLower ("crawl-delay: ".toList) = "crawl-delay: ".toList := by
    decide
  have h2 : List.map Char.toLower ds = ds := map_toLower_digits ds hdig
  rw [h1, h2]

theorem jsTrim_space_digits (ds : JStr) (hne : ds ≠ [])
    (hdig : ∀ c ∈ ds, c.isDigit = true) :
    jsTrim (' ' :: ds) = ds := by
  unfold jsTrim
  have h1 : List.dropWhile jsWhitespace (' ' :: ds) = ds := by
    rw [List.dropWhile_cons, if_pos (by decide)]
    exact dropWhile_ws_digits ds hdig
  rw [h1]
  obtain ⟨d, t, hds⟩ : ∃ d t, ds.reverse = d :: t := by
    cases h : ds.reverse with
    | nil => exact absurd (List.reverse_eq_nil_iff.mp h) hne
    | cons x xs => exact ⟨x, xs, rfl⟩
  have hdmem : d ∈ ds := by
    rw [← List.mem_reverse, hds]; exact List.mem_cons_self _ _
  rw [hds, List.dropWhile_cons, if_neg (by simp [digit_not_ws d (hdig d hdmem)])]
  rw [← hds, List.reverse_reverse]

theorem jsSplit_cdLine (ds : JStr) (hdig : ∀ c ∈ ds, c.isDigit = true) :
    jsSplit ':' ("crawl-delay: ".toList ++ ds)
      = ["crawl-delay".toList, ' ' :: ds] := by
  have hsh : "crawl-delay: ".toList ++ ds
      = "crawl-delay".toList ++ (':' :: (' ' :: ds)) := by
    simp
  rw [hsh]
  rw [jsSplit_append_no_sep ':' _ _ (by decide)]
  have h3 : jsSplit ':' (' ' :: ds) = [(' ' :: ds)] := by
    apply jsSplit_no_sep
    intro c hc
    rcases List.mem_cons.mp hc with rfl | hc2
    · decide
    · exact digit_ne_colon c (hdig c hc2)
  have h2 : jsSplit ':' (':' :: (' ' :: ds)) = [] :: [(' ' :: ds)] := by
    rw [jsSplit, if_pos rfl, h3]
  rw [h2]
  simp

theorem robotsStep_crawlDelay (st : RobotsState) (ds : JStr) (hm : st.uaMatch = true)
    (hne : ds ≠ []) (hdig : ∀ c ∈ ds, c.isDigit = true) :
    robotsStep st ("crawl-delay: ".toList ++ ds)
      = { st with crawlDelay := max (((digitsVal ds : Nat) : Int) * 1000) 500 } := by
  simp only [robotsStep]
  rw [jsToLower_cdLine ds hdig]
  have hua : jsStartsWith "user-agent:".toList ("crawl-delay: ".toList ++ ds) = false := rfl
  have hdis : jsStartsWith "disallow:".toList ("crawl-delay: ".toList ++ ds) = false := rfl
  have hcd : jsStartsWith "crawl-delay:".toList ("crawl-delay: ".toList ++ ds) = true := rfl
  rw [hua]
  simp only [Bool.false_eq_true, if_false, robotsDirectives, hdis, hcd, hm,
    Bool.and_false, Bool.and_true, if_true]
  rw [jsSplit_cdLine ds hdig]
  simp only [List.get?_cons_succ, List.get?_cons_zero, Option.map_some']
  rw [jsTrim_space_digits ds hne hdig]
  simp only [Option.getD_some]
  rw [if_neg hne]
  rw [jsParseInt_digits ds hne hdig]

/-- C4, counterexample.  The claim asserts that a policy document whose
applicable group contains an empty `Disallow:` directive yields
allowed = true; on the document `user-agent: *` + `disallow:` the source's
evaluator returns allowed = false, because line 97 treats an empty
disallow path exactly like `/`. -/
theorem claimC4_counterexample :
    (parseRobotsText ("user-agent: *\ndisallow:".toList)).1 = false := by
  decide

/-- C4, amended.  For every policy document containing an applicable group
`User-agent: *` with a `Disallow: /` directive, the evaluator returns
allowed = false; and a document whose applicable group instead contains an
empty `Disallow:` directive also returns allowed = false (the evaluator
treats an empty disallow path as a disallow-all, matching spec section
4.1).  `mid` is the remainder of the group between the agent line and the
disallow directive (no further agent line), and `others`/`suf` are
arbitrary surrounding document parts. -/
theorem claimC4 (others mid suf : List JStr) (d : JStr)
    (hmid : ∀ l ∈ mid,
      jsStartsWith "user-agent:".toList (jsToLower (jsTrim l)) = false)
    (hd : d = "disallow: /".toList ∨ d = "disallow:".toList) :
    (parseRobotsLines
      (others ++ ["user-agent: *".toList] ++ mid ++ [d] ++ suf)).1 = false := by
  unfold parseRobotsLines
  simp only [List.map_append, List.foldl_append, List.map_cons, List.map_nil,
    List.foldl_cons, List.foldl_nil]
  rw [show jsTrim ("user-agent: *".toList) = "user-agent: *".toList from by decide]
  rw [robotsStep_uaStar]
  have hm : ((mid.map jsTrim).foldl robotsStep
      { (others.map jsTrim).foldl robotsStep robotsInit with
        uaMatch := true }).uaMatch = true := by
    rw [foldl_robotsStep_uaMatch mid _ hmid]
  rcases hd with rfl | rfl
  · rw [show jsTrim ("disallow: /".toList) = "disallow: /".toList from by decide,
      robotsStep_disallowRoot _ hm]
    exact foldl_robotsStep_allowed_false _ _ rfl
  · rw [show jsTrim ("disallow:".toList) = "disallow:".toList from by decide,
      robotsStep_disallowEmpty _ hm]
    exact foldl_robotsStep_allowed_false _ _ rfl

/-- Witness for C4 at a concrete document. -/
theorem claimC4_witness :
    (parseRobotsLines (["user-agent: googlebot".toList]
      ++ ["user-agent: *".toList] ++ ["crawl-delay: 5".toList]
      ++ ["disallow: /".toList] ++ ["user-agent: x".toList])).1 = false :=
  claimC4 ["user-agent: googlebot".toList] ["crawl-delay: 5".toList]
    ["user-agent: x".toList] ("disallow: /".toList) (by decide) (Or.inl rfl)

/-- C5, counterexample.  The claim asserts the per-group state is reset
when a new agent group starts, so an earlier applicable group's
disallow-all does not persist.  On a document whose first applicable group
disallows everything and whose second applicable group only disallows
`/private`, the source's evaluator keeps allowed = false, whereas the
reset evaluation the spec describes yields allowed = true. -/
theorem claimC5_counterexample :
    (parseRobotsText
      ("user-agent: *\ndisallow: /\nuser-agent: obsidiandownloader\ndisallow: /private".toList)).1
        = false ∧
    (parseRobotsTextReset
      ("user-agent: *\ndisallow: /\nuser-agent: obsidiandownloader\ndisallow: /private".toList)).1
        = true := by
  constructor
  · decide
  · decide

/-- C5, amended.  Group evaluation state accumulates in document order
with no reset at agent-group boundaries: once an applicable group has
disallowed the site, the final decision is disallowed no matter what
groups (applicable or not) follow. -/
theorem claimC5 (pre suf : List JStr) :
    (parseRobotsLines
      (pre ++ ["user-agent: *".toList, "disallow: /".toList] ++ suf)).1
        = false := by
  unfold parseRobotsLines
  simp only [List.map_append, List.foldl_append, List.map_cons, List.map_nil,
    List.foldl_cons, List.foldl_nil]
  rw [show jsTrim ("user-agent: *".toList) = "user-agent: *".toList from by decide]
  rw [robotsStep_uaStar]
  rw [show jsTrim ("disallow: /".toList) = "disallow: /".toList from by decide]
  rw [robotsStep_disallowRoot _ rfl]
  exact foldl_robotsStep_allowed_false _ _ rfl

/-- C6.  First conjunct: for every outcome of the robots.txt fetch —
unreadable document, parse failure, absent directive included — the
returned crawl delay is at least 500 ms.  Second conjunct: when the
applicable group `User-agent: *` declares `crawl-delay: s` (digit string
`ds`, value `digitsVal ds` seconds), the evaluator returns exactly
`max(s * 1000, 500)` milliseconds. -/
theorem claimC6 :
    (∀ resp, 500 ≤ (checkRobotsAdvanced resp).2) ∧
    (∀ others ds, ds ≠ [] → (∀ c ∈ ds, c.isDigit = true) →
      (parseRobotsLines (others ++ ["user-agent: *".toList,
        "crawl-delay: ".toList ++ ds])).2
        = max (((digitsVal ds : Nat) : Int) * 1000) 500) := by
  constructor
  · intro resp
    match resp with
    | none => decide
    | some text =>
      show 500 ≤ (parseRobotsText text).2
      unfold parseRobotsText parseRobotsLines
      exact foldl_robotsStep_delay_ge _ _ (by decide)
  · intro others ds hne hdig
    unfold parseRobotsLines
    simp only [List.map_append, List.foldl_append, List.map_cons, List.map_nil,
      List.foldl_cons, List.foldl_nil]
    rw [show jsTrim ("user-agent: *".toList) = "user-agent: *".toList from by decide]
    rw [robotsStep_uaStar]
    rw [jsTrim_cdLine ds hne hdig]
    rw [robotsStep_crawlDelay _ ds rfl hne hdig]

/-- Witness for C6 at the concrete declaration `crawl-delay: 7`. -/
theorem claimC6_witness :
    (parseRobotsLines ([] ++ ["user-agent: *".toList,
      "crawl-delay: ".toList ++ "7".toList])).2
      = max (((digitsVal "7".toList : Nat) : Int) * 1000) 500 :=
  claimC6.2 [] ("7".toList) (by decide) (by decide)

/-! ## Claims about the ephemeral artifact store -/

theorem find?_del_none (store : List StoreEntry) (id : JStr) :
    (redisDel store id).find? (fun e => e.id == id) = none := by
  rw [List.find?_eq_none]
  intro x hx
  unfold redisDel at hx
  simp only [List.mem_filter] at hx
  simpa using hx.2

theorem runGets_absent (store : List StoreEntry) (id : JStr) (ts : List Nat)
    (h : store.find? (fun e => e.id == id) = none) :
    runGets store id ts = ts.map (fun _ => none) := by
  induction ts with
  | nil => rfl
  | cons t ts ih =>
    simp only [runGets, downloadGET, redisGet, h, List.map_cons,
      List.cons.injEq, true_and]
    exact ih

theorem getD_map_none (l : List Nat) (k : Nat) :
    (l.map (fun _ => (none : Option JStr))).getD k none = none := by
  induction l generalizing k with
  | nil => simp [List.getD]
  | cons t ts ih =>
    cases k with
    | zero => simp
    | succ k => simp [ih k]

theorem countP_map_none (l : List Nat) :
    (l.map (fun _ => (none : Option JStr))).countP Option.isSome = 0 := by
  induction l with
  | nil => rfl
  | cons t ts ih => simp [List.countP_cons, ih]

/-- C1.  Across any sequence of retrieval calls for the same id, at
whatever times relative to the TTL: at most one call is served the
archive bytes, and every call after a successful one is answered NotFound,
because the successful call deletes the entry before responding. -/
theorem claimC1 (store : List StoreEntry) (id : JStr) (ts : List Nat) :
    ((runGets store id ts).countP Option.isSome ≤ 1) ∧
    (∀ i j : Nat, i < j → j < ts.length →
      ((runGets store id ts).getD i none).isSome = true →
      (runGets store id ts).getD j none = none) := by
  induction ts generalizing store with
  | nil =>
    refine ⟨by simp [runGets], ?_⟩
    intro i j hij hj hsome
    simp at hj
  | cons t ts ih =>
    cases hg : redisGet store t id with
    | none =>
      have hrun : runGets store id (t :: ts) = none :: runGets store id ts := by
        simp [runGets, downloadGET, hg]
      rw [hrun]
      refine ⟨?_, ?_⟩
      · simpa [List.countP_cons] using (ih store).1
      · intro i j hij hj hsome
        cases i with
        | zero => simp at hsome
        | succ i' =>
          cases j with
          | zero => omega
          | succ j' =>
            rw [List.getD_cons_succ] at hsome ⊢
            exact (ih store).2 i' j' (by omega) (by simpa using hj) hsome
    | some p =>
      have hrun : runGets store id (t :: ts)
          = some p :: ts.map (fun _ => none) := by
        simp only [runGets, downloadGET, hg]
        rw [runGets_absent _ _ _ (find?_del_none store id)]
      rw [hrun]
      refine ⟨?_, ?_⟩
      · simp [List.countP_cons, countP_map_none]
      · intro i j hij hj hsome
        cases j with
        | zero => omega
        | succ j' =>
          rw [List.getD_cons_succ, getD_map_none]

def storeC1 : List StoreEntry :=
  [{ id := "a".toList, payload := "zipbytes".toList, expiresAt := 100 }]

/-- Witness for C1: a stored artifact, retrieved at times 0, 1 and 2; the
second call is NotFound. -/
theorem claimC1_witness :
    (runGets storeC1 ("a".toList) [0, 1, 2]).getD 1 none = none :=
  (claimC1 storeC1 ("a".toList) [0, 1, 2]).2 0 1 (by decide) (by decide)
    (by decide)

/-! ## Claim about the report route -/

/-- C9.  A validly-shaped report whose reason is `owner` immediately adds
the reported vault id to the blocked set as a side effect of filing, so a
subsequent `isVaultBlocked` check returns true. -/
theorem claimC9 (r : ReportBody) (blocked : List JStr) (vid : JStr)
    (hok : reportSchemaOk r = true)
    (hreason : r.reason = ReportReason.owner)
    (hvid : extractVaultId r.vaultUrl = some vid)
    (hne : ¬ vid = []) :
    (reportPOST (some r) blocked).1 = ReportOutcome.submitted ∧
    vid ∈ (reportPOST (some r) blocked).2 ∧
    isVaultBlocked (reportPOST (some r) blocked).2 vid = true := by
  have h1 : reportPOST (some r) blocked
      = (.submitted, saddVault blocked vid) := by
    simp [reportPOST, hok, hvid, hne, hreason]
  rw [h1]
  have hmem : vid ∈ saddVault blocked vid := by
    unfold saddVault
    split
    · assumption
    · exact List.mem_cons_self _ _
  exact ⟨rfl, hmem, by simpa [isVaultBlocked] using hmem⟩

def reportC9 : ReportBody :=
  { vaultUrl := "https://publish.obsidian.md/vault-a".toList
    email := "owner@example.com".toList
    reason := ReportReason.owner
    details := "Please remove my vault now".toList
    verificationUrl := none }

/-- Witness for C9 at a concrete owner report. -/
theorem claimC9_witness :
    isVaultBlocked (reportPOST (some reportC9) []).2 ("vault-a".toList) = true :=
  (claimC9 reportC9 [] ("vault-a".toList) (by decide) rfl (by decide)
    (by decide)).2.2

/-! ## Claim about the POST handler's blocked-site path -/

/-- C7.  When the requested site's vault id is in the blocked set, the run
request is rejected with the Blocked outcome — which is a different
outcome from the robots-denied (PolicyDenied) one, and is returned
whatever the policy fetch would say — and the recorded effect trace shows
the rate limiter is never consulted. -/
theorem claimC7 (req : RunRequest) (blocked : List JStr)
    (cleanUrl vaultId : JStr)
    (hconsent : req.consent = true)
    (hclean : validateAndCleanUrl req.url = some cleanUrl)
    (hvid : extractVaultId cleanUrl = some vaultId)
    (hne : ¬ vaultId = [])
    (hblocked : vaultId ∈ blocked)
    (rlSuccess : Bool) (robotsResp : Option JStr)
    (fetchPage : JStr → Option PageData) (fetchDoc : JStr → Option (List JStr))
    (now downloadId : JStr) (archiveKB : Nat) :
    downloadPOST (some req) blocked rlSuccess robotsResp fetchPage fetchDoc
        now downloadId archiveKB
      = (PostOutcome.blockedVault, [PostEffect.blockedCheck]) ∧
    PostEffect.rateLimitCheck ∉
      (downloadPOST (some req) blocked rlSuccess robotsResp fetchPage fetchDoc
        now downloadId archiveKB).2 ∧
    PostOutcome.blockedVault ≠ PostOutcome.robotsDenied := by
  have h1 : downloadPOST (some req) blocked rlSuccess robotsResp fetchPage
      fetchDoc now downloadId archiveKB
      = (PostOutcome.blockedVault, [PostEffect.blockedCheck]) := by
    simp [downloadPOST, hconsent, hclean, hvid, hne, isVaultBlocked, hblocked]
  refine ⟨h1, ?_, by simp⟩
  rw [h1]
  simp

/-- Witness for C7: a blocked vault id, permissive rate limiter and
permissive policy; the outcome is still Blocked with only the
blocked-check effect performed. -/
theorem claimC7_witness :
    downloadPOST
      (some { url := "https://publish.obsidian.md/vault-a".toList,
              consent := true, timestamp := [] })
      ["vault-a".toList] true none (fun _ => none) (fun _ => none) [] [] 0
      = (PostOutcome.blockedVault, [PostEffect.blockedCheck]) :=
  (claimC7 _ _ ("https://publish.obsidian.md/vault-a".toList)
    ("vault-a".toList) rfl (by decide) (by decide) (by decide) (by decide)
    true none _ _ [] [] 0).1

/-! ## Branch equations for the crawl loop -/

theorem crawlLoop_nil (fetchPage : JStr → Option PageData)
    (fetchDoc : JStr → Option (List JStr)) (now : JStr) (v : List JStr)
    (pc : Nat) (va : List (JStr × PageRec)) (ev : List (ℚ × JStr)) (s : Nat) :
    crawlLoop fetchPage fetchDoc now v [] pc va ev s = ⟨v, va, ev, s⟩ := by
  rw [crawlLoop]

theorem crawlLoop_stop (fetchPage : JStr → Option PageData)
    (fetchDoc : JStr → Option (List JStr)) (now : JStr) (v : List JStr)
    (p : JStr) (ps : List JStr) (pc : Nat) (va : List (JStr × PageRec))
    (ev : List (ℚ × JStr)) (s : Nat) (h : ¬ pc < maxPages) :
    crawlLoop fetchPage fetchDoc now v (p :: ps) pc va ev s = ⟨v, va, ev, s⟩ := by
  rw [crawlLoop, dif_neg h]

theorem crawlLoop_skip (fetchPage : JStr → Option PageData)
    (fetchDoc : JStr → Option (List JStr)) (now : JStr) (v : List JStr)
    (p : JStr) (ps : List JStr) (pc : Nat) (va : List (JStr × PageRec))
    (ev : List (ℚ × JStr)) (s : Nat) (h : pc < maxPages) (hv : p ∈ v) :
    crawlLoop fetchPage fetchDoc now v (p :: ps) pc va ev s
      = crawlLoop fetchPage fetchDoc now v ps pc va ev (s + 1) := by
  rw [crawlLoop, dif_pos h, if_pos hv]

theorem crawlLoop_fetchNone (fetchPage : JStr → Option PageData)
    (fetchDoc : JStr → Option (List JStr)) (now : JStr) (v : List JStr)
    (p : JStr) (ps : List JStr) (pc : Nat) (va : List (JStr × PageRec))
    (ev : List (ℚ × JStr)) (s : Nat) (h : pc < maxPages) (hv : p ∉ v)
    (hfp : fetchPage p = none) :
    crawlLoop fetchPage fetchDoc now v (p :: ps) pc va ev s
      = crawlLoop fetchPage fetchDoc now (p :: v) ps (pc + 1) va
          (ev ++ [(progressOf (pc + 1) ps.length,
            "Processing page ".toList ++ natToStr (pc + 1) ++ "...".toList)])
          (s + 1) := by
  rw [crawlLoop, dif_pos h, if_neg hv]
  simp only [hfp]

theorem crawlLoop_docNone (fetchPage : JStr → Option PageData)
    (fetchDoc : JStr → Option (List JStr)) (now : JStr) (v : List JStr)
    (p : JStr) (ps : List JStr) (pc : Nat) (va : List (JStr × PageRec))
    (ev : List (ℚ × JStr)) (s : Nat) (h : pc < maxPages) (hv : p ∉ v)
    (pd : PageData) (hfp : fetchPage p = some pd) (h2 : pc + 1 < maxPages)
    (hfd : fetchDoc p = none) :
    crawlLoop fetchPage fetchDoc now v (p :: ps) pc va ev s
      = crawlLoop fetchPage fetchDoc now (p :: v) ps (pc + 1)
          (mapSet va (fileNameOf p) ⟨pd.content, pd.title, p, now⟩)
          (ev ++ [(progressOf (pc + 1) ps.length,
            "Processing page ".toList ++ natToStr (pc + 1) ++ "...".toList)])
          (s + 1) := by
  rw [crawlLoop, dif_pos h, if_neg hv]
  simp only [hfp, hfd, if_pos h2]

theorem crawlLoop_push (fetchPage : JStr → Option PageData)
    (fetchDoc : JStr → Option (List JStr)) (now : JStr) (v : List JStr)
    (p : JStr) (ps : List JStr) (pc : Nat) (va : List (JStr × PageRec))
    (ev : List (ℚ × JStr)) (s : Nat) (h : pc < maxPages) (hv : p ∉ v)
    (pd : PageData) (hfp : fetchPage p = some pd) (h2 : pc + 1 < maxPages)
    (hrefs : List JStr) (hfd : fetchDoc p = some hrefs) :
    crawlLoop fetchPage fetchDoc now v (p :: ps) pc va ev s
      = crawlLoop fetchPage fetchDoc now (p :: v)
          (pushLinks (p :: v) ps (extractLinks hrefs p)) (pc + 1)
          (mapSet va (fileNameOf p) ⟨pd.content, pd.title, p, now⟩)
          (ev ++ [(progressOf (pc + 1) ps.length,
            "Processing page ".toList ++ natToStr (pc + 1) ++ "...".toList)])
          (s + 1) := by
  rw [crawlLoop, dif_pos h, if_neg hv]
  simp only [hfp, hfd, if_pos h2]

theorem crawlLoop_atMax (fetchPage : JStr → Option PageData)
    (fetchDoc : JStr → Option (List JStr)) (now : JStr) (v : List JStr)
    (p : JStr) (ps : List JStr) (pc : Nat) (va : List (JStr × PageRec))
    (ev : List (ℚ × JStr)) (s : Nat) (h : pc < maxPages) (hv : p ∉ v)
    (pd : PageData) (hfp : fetchPage p = some pd)
    (h2 : ¬ pc + 1 < maxPages) :
    crawlLoop fetchPage fetchDoc now v (p :: ps) pc va ev s
      = crawlLoop fetchPage fetchDoc now (p :: v) ps (pc + 1)
          (mapSet va (fileNameOf p) ⟨pd.content, pd.title, p, now⟩)
          (ev ++ [(progressOf (pc + 1) ps.length,
            "Processing page ".toList ++ natToStr (pc + 1) ++ "...".toList)])
          (s + 1) := by
  rw [crawlLoop, dif_pos h, if_neg hv]
  simp only [hfp, if_neg h2]

/-- The fuel twin computes the crawl loop: a `some` result is the loop's
value. -/
theorem crawlFuel_sound (fetchPage : JStr → Option PageData)
    (fetchDoc : JStr → Option (List JStr)) (now : JStr) (fuel : Nat) :
    ∀ visited toVisit pageCount vault events steps r,
      crawlFuel fetchPage fetchDoc now fuel visited toVisit pageCount vault
        events steps = some r →
      crawlLoop fetchPage fetchDoc now visited toVisit pageCount vault events
        steps = r := by
  induction fuel with
  | zero =>
    intro v t pc va ev s r h
    simp [crawlFuel] at h
  | succ f ih =>
    intro v t pc va ev s r h
    match t with
    | [] =>
      rw [crawlLoop_nil]
      simpa [crawlFuel] using h
    | p :: ps =>
      simp only [crawlFuel] at h
      by_cases hpc : pc < maxPages
      · rw [if_pos hpc] at h
        by_cases hv : p ∈ v
        · rw [if_pos hv] at h
          rw [crawlLoop_skip _ _ _ _ _ _ _ _ _ _ hpc hv]
          exact ih _ _ _ _ _ _ _ h
        · rw [if_neg hv] at h
          cases hfp : fetchPage p with
          | none =>
            simp only [hfp] at h
            rw [crawlLoop_fetchNone _ _ _ _ _ _ _ _ _ _ hpc hv hfp]
            exact ih _ _ _ _ _ _ _ h
          | some pd =>
            simp only [hfp] at h
            by_cases h2 : pc + 1 < maxPages
            · rw [if_pos h2] at h
              cases hfd : fetchDoc p with
              | none =>
                simp only [hfd] at h
                rw [crawlLoop_docNone _ _ _ _ _ _ _ _ _ _ hpc hv pd hfp h2 hfd]
                exact ih _ _ _ _ _ _ _ h
              | some hrefs =>
                simp only [hfd] at h
                rw [crawlLoop_push _ _ _ _ _ _ _ _ _ _ hpc hv pd hfp h2 hrefs hfd]
                exact ih _ _ _ _ _ _ _ h
            · rw [if_neg h2] at h
              rw [crawlLoop_atMax _ _ _ _ _ _ _ _ _ _ hpc hv pd hfp h2]
              exact ih _ _ _ _ _ _ _ h
      · rw [if_neg hpc] at h
        rw [crawlLoop_stop _ _ _ _ _ _ _ _ _ _ hpc]
        exact Option.some_inj.mp h

theorem pushLinks_length_le (visited stack links : List JStr) :
    (pushLinks visited stack links).length ≤ stack.length + links.length := by
  induction links generalizing stack with
  | nil => simp [pushLinks]
  | cons l ls ih =>
    unfold pushLinks at ih ⊢
    simp only [List.foldl_cons]
    split
    · exact le_trans (ih _) (by simp only [List.length_cons]; omega)
    · exact le_trans (ih _) (by simp only [List.length_cons]; omega)

theorem dedup_length_le (l : List JStr) :
    (dedupKeepFirst l).length ≤ l.length := by
  induction l with
  | nil => simp [dedupKeepFirst]
  | cons u rest ih =>
    simp only [dedupKeepFirst, List.length_cons]
    have h2 := le_trans
      (List.length_filter_le (fun v => decide (¬ v = u)) (dedupKeepFirst rest)) ih
    omega

theorem extractLinks_length_le (hrefs : List JStr) (base : JStr) :
    (extractLinks hrefs base).length ≤ hrefs.length := by
  unfold extractLinks
  refine le_trans (dedup_length_le _) (le_trans (List.length_filter_le _ _) ?_)
  exact List.length_filterMap_le _ _

theorem crawlLoop_visited_le (fetchPage : JStr → Option PageData)
    (fetchDoc : JStr → Option (List JStr)) (now : JStr) :
    ∀ (visited toVisit : List JStr) (pageCount : Nat)
      (vault : List (JStr × PageRec)) (events : List (ℚ × JStr)) (steps : Nat),
      visited.length ≤ pageCount → pageCount ≤ maxPages →
      (crawlLoop fetchPage fetchDoc now visited toVisit pageCount vault events
        steps).visited.length ≤ maxPages := by
  intro v t pc va ev s
  induction v, t, pc, va, ev, s using crawlLoop.induct fetchPage fetchDoc now with
  | case1 v pc va ev s =>
    intro h1 h2
    rw [crawlLoop_nil]
    dsimp only
    omega
  | case2 v pc va ev s p ps hpc hv ih =>
    intro h1 h2
    rw [crawlLoop_skip _ _ _ _ _ _ _ _ _ _ hpc hv]
    exact ih h1 h2
  | case3 v pc va ev s p ps hpc hv v' pc' ev' hfp ih =>
    intro h1 h2
    rw [crawlLoop_fetchNone _ _ _ _ _ _ _ _ _ _ hpc hv hfp]
    exact ih
      (show (p :: v).length ≤ pc + 1 by simp only [List.length_cons]; omega)
      (show pc + 1 ≤ maxPages by omega)
  | case4 v pc va ev s p ps hpc hv v' pc' ev' pd hfp va' h2' hfd ih =>
    intro h1 h2
    rw [crawlLoop_docNone _ _ _ _ _ _ _ _ _ _ hpc hv pd hfp h2' hfd]
    exact ih
      (show (p :: v).length ≤ pc + 1 by simp only [List.length_cons]; omega)
      (show pc + 1 ≤ maxPages by omega)
  | case5 v pc va ev s p ps hpc hv v' pc' ev' pd hfp va' h2' hrefs hfd ih =>
    intro h1 h2
    rw [crawlLoop_push _ _ _ _ _ _ _ _ _ _ hpc hv pd hfp h2' hrefs hfd]
    exact ih
      (show (p :: v).length ≤ pc + 1 by simp only [List.length_cons]; omega)
      (show pc + 1 ≤ maxPages by omega)
  | case6 v pc va ev s p ps hpc hv v' pc' ev' pd hfp va' h2' ih =>
    intro h1 h2
    rw [crawlLoop_atMax _ _ _ _ _ _ _ _ _ _ hpc hv pd hfp h2']
    exact ih
      (show (p :: v).length ≤ pc + 1 by simp only [List.length_cons]; omega)
      (show pc + 1 ≤ maxPages by omega)
  | case7 v pc va ev s p ps hpc =>
    intro h1 h2
    rw [crawlLoop_stop _ _ _ _ _ _ _ _ _ _ hpc]
    dsimp only
    omega

theorem crawlLoop_steps_le (fetchPage : JStr → Option PageData)
    (fetchDoc : JStr → Option (List JStr)) (now : JStr) (L : Nat)
    (hL : ∀ u hrefs, fetchDoc u = some hrefs → hrefs.length ≤ L) :
    ∀ (visited toVisit : List JStr) (pageCount : Nat)
      (vault : List (JStr × PageRec)) (events : List (ℚ × JStr)) (steps : Nat),
      (crawlLoop fetchPage fetchDoc now visited toVisit pageCount vault events
        steps).steps
        ≤ steps + toVisit.length + (maxPages - pageCount) * (L + 1) := by
  intro v t pc va ev s
  induction v, t, pc, va, ev, s using crawlLoop.induct fetchPage fetchDoc now with
  | case1 v pc va ev s =>
    rw [crawlLoop_nil]
    dsimp only
    omega
  | case2 v pc va ev s p ps hpc hv ih =>
    rw [crawlLoop_skip _ _ _ _ _ _ _ _ _ _ hpc hv]
    refine le_trans ih ?_
    simp only [List.length_cons]
    omega
  | case3 v pc va ev s p ps hpc hv v' pc' ev' hfp ih =>
    rw [crawlLoop_fetchNone _ _ _ _ _ _ _ _ _ _ hpc hv hfp]
    refine le_trans ih ?_
    have hk : maxPages - pc = (maxPages - (pc + 1)) + 1 := by omega
    rw [hk]
    simp only [List.length_cons, add_mul, one_mul]
    linarith
  | case4 v pc va ev s p ps hpc hv v' pc' ev' pd hfp va' h2' hfd ih =>
    rw [crawlLoop_docNone _ _ _ _ _ _ _ _ _ _ hpc hv pd hfp h2' hfd]
    refine le_trans ih ?_
    have hk : maxPages - pc = (maxPages - (pc + 1)) + 1 := by omega
    rw [hk]
    simp only [List.length_cons, add_mul, one_mul]
    linarith
  | case5 v pc va ev s p ps hpc hv v' pc' ev' pd hfp va' h2' hrefs hfd ih =>
    rw [crawlLoop_push _ _ _ _ _ _ _ _ _ _ hpc hv pd hfp h2' hrefs hfd]
    refine le_trans ih ?_
    have hpush := pushLinks_length_le (p :: v) ps (extractLinks hrefs p)
    have hext := le_trans (extractLinks_length_le hrefs p) (hL p hrefs hfd)
    have hk : maxPages - pc = (maxPages - (pc + 1)) + 1 := by omega
    rw [hk]
    simp only [List.length_cons, add_mul, one_mul]
    linarith
  | case6 v pc va ev s p ps hpc hv v' pc' ev' pd hfp va' h2' ih =>
    rw [crawlLoop_atMax _ _ _ _ _ _ _ _ _ _ hpc hv pd hfp h2']
    refine le_trans ih ?_
    have hk : maxPages - pc = (maxPages - (pc + 1)) + 1 := by omega
    rw [hk]
    simp only [List.length_cons, add_mul, one_mul]
    linarith
  | case7 v pc va ev s p ps hpc =>
    rw [crawlLoop_stop _ _ _ _ _ _ _ _ _ _ hpc]
    dsimp only
    omega

/-- C2.  The crawl always terminates — `crawlLoop` is a total function,
defined by well-founded recursion on `(maxPages - pageCount,
toVisit.length)`, for every link graph including fully cyclic ones and
graphs generating unboundedly many URLs — the visited set never exceeds
the 500-page ceiling, and when each fetched document carries at most `L`
links the number of loop iterations is at most `1 + 500 * (L + 1)`. -/
theorem claimC2 (fetchPage : JStr → Option PageData)
    (fetchDoc : JStr → Option (List JStr)) (now startUrl : JStr) :
    (fetchVaultData fetchPage fetchDoc now startUrl).visited.length ≤ 500 ∧
    (∀ L : Nat, (∀ u hrefs, fetchDoc u = some hrefs → hrefs.length ≤ L) →
      (fetchVaultData fetchPage fetchDoc now startUrl).steps
        ≤ 1 + 500 * (L + 1)) := by
  constructor
  · show (crawlLoop fetchPage fetchDoc now [] [startUrl] 0 []
      [((0 : ℚ), "Discovering pages...".toList)] 0).visited.length ≤ maxPages
    exact crawlLoop_visited_le fetchPage fetchDoc now _ _ _ _ _ _
      (Nat.le_refl 0) (Nat.zero_le _)
  · intro L hL
    show (crawlLoop fetchPage fetchDoc now [] [startUrl] 0 []
      [((0 : ℚ), "Discovering pages...".toList)] 0).steps ≤ 1 + 500 * (L + 1)
    have h := crawlLoop_steps_le fetchPage fetchDoc now L hL [] [startUrl] 0 []
      [((0 : ℚ), "Discovering pages...".toList)] 0
    have h2 : (0 : Nat) + [startUrl].length + (maxPages - 0) * (L + 1)
        = 1 + 500 * (L + 1) := by
      norm_num [maxPages]
    rw [h2] at h
    exact h

def urlA : JStr := "https://publish.obsidian.md/v/a".toList
def urlB : JStr := "https://publish.obsidian.md/v/b".toList

/-- A fully cyclic two-page link graph: each page links back to the
other. -/
def fdCyc : JStr → Option (List JStr) := fun u =>
  if u = urlA then some ["/v/b".toList]
  else if u = urlB then some ["/v/a".toList]
  else none

theorem fdCyc_bound : ∀ u hrefs, fdCyc u = some hrefs → hrefs.length ≤ 1 := by
  intro u hrefs h
  unfold fdCyc at h
  split at h
  · injection h with h2
    subst h2
    decide
  · split at h
    · injection h with h2
      subst h2
      decide
    · exact Option.noConfusion h

/-- Witness for C2 on the cyclic graph `fdCyc`. -/
theorem claimC2_witness :
    (∀ u hrefs, fdCyc u = some hrefs → hrefs.length ≤ 1) ∧
    (fetchVaultData (fun _ => some ⟨"x".toList, "T".toList⟩) fdCyc [] urlA).steps
      ≤ 1 + 500 * (1 + 1) :=
  ⟨fdCyc_bound,
   (claimC2 (fun _ => some ⟨"x".toList, "T".toList⟩) fdCyc [] urlA).2 1
     fdCyc_bound⟩

/-! ## C10: same-origin confinement of the frontier -/

theorem mem_dedupKeepFirst (x : JStr) (l : List JStr)
    (h : x ∈ dedupKeepFirst l) : x ∈ l := by
  induction l with
  | nil => simp [dedupKeepFirst] at h
  | cons u rest ih =>
    simp only [dedupKeepFirst, List.mem_cons] at h ⊢
    rcases h with rfl | hx
    · exact Or.inl rfl
    · exact Or.inr (ih (List.mem_of_mem_filter hx))

theorem extractLinks_host (hrefs : List JStr) (base : JStr) (u : JStr)
    (h : u ∈ extractLinks hrefs base) : hostOf u = some publishHost := by
  unfold extractLinks at h
  have h3 := List.of_mem_filter (mem_dedupKeepFirst _ _ h)
  simpa using h3

theorem mem_pushLinks (visited : List JStr) :
    ∀ (links stack : List JStr) (x : JStr), x ∈ pushLinks visited stack links →
      x ∈ stack ∨ (x ∈ links ∧ x ∉ visited ∧ x ∉ stack) := by
  intro links
  induction links with
  | nil => intro stack x h; exact Or.inl h
  | cons l ls ih =>
    intro stack x h
    simp only [pushLinks, List.foldl_cons] at h
    by_cases hc : l ∈ visited ∨ l ∈ stack
    · rw [if_pos hc] at h
      rcases ih stack x h with h1 | ⟨h2, h3, h4⟩
      · exact Or.inl h1
      · exact Or.inr ⟨List.mem_cons_of_mem _ h2, h3, h4⟩
    · rw [if_neg hc] at h
      push_neg at hc
      rcases ih (l :: stack) x h with h1 | ⟨h2, h3, h4⟩
      · rcases List.mem_cons.mp h1 with rfl | h5
        · exact Or.inr ⟨List.mem_cons_self _ _, hc.1, hc.2⟩
        · exact Or.inl h5
      · exact Or.inr ⟨List.mem_cons_of_mem _ h2, h3,
          fun hx => h4 (List.mem_cons_of_mem _ hx)⟩

theorem crawlLoop_visited_host (fetchPage : JStr → Option PageData)
    (fetchDoc : JStr → Option (List JStr)) (now : JStr) :
    ∀ (visited toVisit : List JStr) (pageCount : Nat)
      (vault : List (JStr × PageRec)) (events : List (ℚ × JStr)) (steps : Nat),
      (∀ u ∈ visited, hostOf u = some publishHost) →
      (∀ u ∈ toVisit, hostOf u = some publishHost) →
      ∀ u ∈ (crawlLoop fetchPage fetchDoc now visited toVisit pageCount vault
        events steps).visited, hostOf u = some publishHost := by
  intro v t pc va ev s
  induction v, t, pc, va, ev, s using crawlLoop.induct fetchPage fetchDoc now with
  | case1 v pc va ev s =>
    intro h1 h2
    rw [crawlLoop_nil]
    exact h1
  | case2 v pc va ev s p ps hpc hv ih =>
    intro h1 h2
    rw [crawlLoop_skip _ _ _ _ _ _ _ _ _ _ hpc hv]
    exact ih h1 (fun u hu => h2 u (List.mem_cons_of_mem _ hu))
  | case3 v pc va ev s p ps hpc hv v' pc' ev' hfp ih =>
    intro h1 h2
    rw [crawlLoop_fetchNone _ _ _ _ _ _ _ _ _ _ hpc hv hfp]
    refine ih ?_ (fun u hu => h2 u (List.mem_cons_of_mem _ hu))
    intro u hu
    rcases List.mem_cons.mp hu with rfl | hu2
    · exact h2 u (List.mem_cons_self _ _)
    · exact h1 u hu2
  | case4 v pc va ev s p ps hpc hv v' pc' ev' pd hfp va' h2' hfd ih =>
    intro h1 h2
    rw [crawlLoop_docNone _ _ _ _ _ _ _ _ _ _ hpc hv pd hfp h2' hfd]
    refine ih ?_ (fun u hu => h2 u (List.mem_cons_of_mem _ hu))
    intro u hu
    rcases List.mem_cons.mp hu with rfl | hu2
    · exact h2 u (List.mem_cons_self _ _)
    · exact h1 u hu2
  | case5 v pc va ev s p ps hpc hv v' pc' ev' pd hfp va' h2' hrefs hfd ih =>
    intro h1 h2
    rw [crawlLoop_push _ _ _ _ _ _ _ _ _ _ hpc hv pd hfp h2' hrefs hfd]
    have hvis : ∀ u ∈ (p :: v), hostOf u = some publishHost := by
      intro u hu
      rcases List.mem_cons.mp hu with rfl | hu2
      · exact h2 u (List.mem_cons_self _ _)
      · exact h1 u hu2
    refine ih hvis ?_
    intro u hu
    rcases mem_pushLinks (p :: v) (extractLinks hrefs p) ps u hu with
      h5 | ⟨h6, h7, h8⟩
    · exact h2 u (List.mem_cons_of_mem _ h5)
    · exact extractLinks_host hrefs p u h6
  | case6 v pc va ev s p ps hpc hv v' pc' ev' pd hfp va' h2' ih =>
    intro h1 h2
    rw [crawlLoop_atMax _ _ _ _ _ _ _ _ _ _ hpc hv pd hfp h2']
    refine ih ?_ (fun u hu => h2 u (List.mem_cons_of_mem _ hu))
    intro u hu
    rcases List.mem_cons.mp hu with rfl | hu2
    · exact h2 u (List.mem_cons_self _ _)
    · exact h1 u hu2
  | case7 v pc va ev s p ps hpc =>
    intro h1 h2
    rw [crawlLoop_stop _ _ _ _ _ _ _ _ _ _ hpc]
    exact h1

/-- C10.  Every URL `extractLinks` yields parses to hostname
`publish.obsidian.md`; a link is enqueued only when it is neither visited
nor already pending; and consequently, when the start URL is on
`publish.obsidian.md`, every URL the crawl ever fetches (i.e. marks
visited) is on that host, whatever the crawled pages link to. -/
theorem claimC10 (fetchPage : JStr → Option PageData)
    (fetchDoc : JStr → Option (List JStr)) (now startUrl : JStr) :
    (∀ (hrefs : List JStr) (base u : JStr), u ∈ extractLinks hrefs base →
      hostOf u = some publishHost) ∧
    (∀ (visited stack links : List JStr) (x : JStr),
      x ∈ pushLinks visited stack links →
      x ∈ stack ∨ (x ∈ links ∧ x ∉ visited ∧ x ∉ stack)) ∧
    (hostOf startUrl = some publishHost →
      ∀ u ∈ (fetchVaultData fetchPage fetchDoc now startUrl).visited,
        hostOf u = some publishHost) := by
  refine ⟨fun hrefs base u h => extractLinks_host hrefs base u h,
    fun visited stack links x h => mem_pushLinks visited links stack x h, ?_⟩
  intro hstart u hu
  refine crawlLoop_visited_host fetchPage fetchDoc now [] [startUrl] 0 []
    [((0 : ℚ), "Discovering pages...".toList)] 0 (by simp) ?_ u hu
  intro w hw
  rcases List.mem_cons.mp hw with rfl | hw2
  · exact hstart
  · simp at hw2

/-- Witness for C10: a root-relative href resolved against the root URL,
and the crawl of a page whose fetches fail. -/
theorem claimC10_witness :
    hostOf ("https://publish.obsidian.md/v/b".toList) = some publishHost ∧
    hostOf urlA = some publishHost := by
  constructor
  · exact (claimC10 (fun _ => none) (fun _ => none) [] urlA).1
      ["/v/b".toList] urlA ("https://publish.obsidian.md/v/b".toList)
      (by decide)
  · refine (claimC10 (fun _ => none) (fun _ => none) [] urlA).2.2 (by decide)
      urlA ?_
    have hc : crawlLoop (fun _ => none) (fun _ => none) [] [] [urlA] 0 []
        [((0 : ℚ), "Discovering pages...".toList)] 0
        = ⟨[urlA], [],
            [((0 : ℚ), "Discovering pages...".toList),
             (progressOf 1 0,
              "Processing page ".toList ++ natToStr 1 ++ "...".toList)], 1⟩ :=
      crawlFuel_sound _ _ _ 2 _ _ _ _ _ _ _ rfl
    show urlA ∈ (crawlLoop (fun _ => none) (fun _ => none) [] [] [urlA] 0 []
        [((0 : ℚ), "Discovering pages...".toList)] 0).visited
    rw [hc]
    exact List.mem_cons_self _ _

/-! ## C3: shape of the progress stream -/

/-- C3, amended.  Every stream a run produces is a sequence of progress
events followed by exactly one terminal event (`complete` or `error`); the
progress values are derived from visited/(visited+pending) but are NOT
monotone: discovering links grows the pending set and can lower the
ratio (see the counterexample). -/
theorem claimC3 (fetchPage : JStr → Option PageData)
    (fetchDoc : JStr → Option (List JStr)) (now startUrl downloadId : JStr)
    (archiveKB : Nat) :
    ∃ ps t, streamEvents fetchPage fetchDoc now startUrl downloadId archiveKB
        = ps ++ [t] ∧ ps.all isProgress = true ∧ isTerminal t = true := by
  simp only [streamEvents]
  by_cases h : (fetchVaultData fetchPage fetchDoc now startUrl).vault.length = 0
  · refine ⟨StreamEvent.progress 5 "Starting vault discovery...".toList ::
      (fetchVaultData fetchPage fetchDoc now startUrl).events.map
        (fun e => StreamEvent.progress (innerValue e.1) e.2),
      StreamEvent.error "No content found in vault".toList, ?_, ?_, rfl⟩
    · rw [if_pos h]
    · rw [List.all_eq_true]
      intro x hx
      rcases List.mem_cons.mp hx with rfl | hx2
      · rfl
      · obtain ⟨e, he, rfl⟩ := List.mem_map.mp hx2
        rfl
  · refine ⟨StreamEvent.progress 5 "Starting vault discovery...".toList ::
      ((fetchVaultData fetchPage fetchDoc now startUrl).events.map
        (fun e => StreamEvent.progress (innerValue e.1) e.2)
       ++ [StreamEvent.progress 80 "Creating archive...".toList,
           StreamEvent.progress 95 "Preparing download...".toList,
           StreamEvent.progress 100 "Complete!".toList]),
      StreamEvent.complete downloadId
        (fetchVaultData fetchPage fetchDoc now startUrl).vault.length
        (natToStr archiveKB ++ " KB".toList), ?_, ?_, rfl⟩
    · rw [if_neg h]
      simp
    · rw [List.all_eq_true]
      intro x hx
      rcases List.mem_cons.mp hx with rfl | hx2
      · rfl
      · rcases List.mem_append.mp hx2 with hx3 | hx4
        · obtain ⟨e, he, rfl⟩ := List.mem_map.mp hx3
          rfl
        · simp only [List.mem_cons, List.not_mem_nil, or_false] at hx4
          rcases hx4 with rfl | rfl | rfl <;> rfl

def urlC : JStr := "https://publish.obsidian.md/v/c".toList

def fpC3 : JStr → Option PageData := fun _ => some ⟨"x".toList, "T".toList⟩

/-- A root page linking to two fresh pages, which link nowhere. -/
def fdC3 : JStr → Option (List JStr) := fun u =>
  if u = urlA then some ["/v/b".toList, "/v/c".toList] else some []

/-- The crawl of `fdC3` from the root: three pages, with the second
progress callback carrying ratio 2/3 because two fresh links entered the
pending stack. -/
def crawlC3 : CrawlResult :=
  ⟨[urlB, urlC, urlA],
   [("v/a.md".toList, ⟨"x".toList, "T".toList, urlA, []⟩),
    ("v/c.md".toList, ⟨"x".toList, "T".toList, urlC, []⟩),
    ("v/b.md".toList, ⟨"x".toList, "T".toList, urlB, []⟩)],
   [((0 : ℚ), "Discovering pages...".toList),
    (progressOf 1 0, "Processing page ".toList ++ natToStr 1 ++ "...".toList),
    (progressOf 2 1, "Processing page ".toList ++ natToStr 2 ++ "...".toList),
    (progressOf 3 0, "Processing page ".toList ++ natToStr 3 ++ "...".toList)],
   3⟩

/-- C3, counterexample.  On the three-page vault of `fdC3` the stream's
progress values are 5, 5, 75, 51, 75, 75, 80, 95, 100: after the first
page reports 75, the two newly discovered pending pages drop the ratio
and the next value is 51, so the progress values are not non-decreasing
(and a fortiori not strictly increasing). -/
theorem claimC3_counterexample :
    nonDecreasing (progressValues
      (streamEvents fpC3 fdC3 [] urlA ("d1".toList) 1)) = false := by
  have hc : crawlLoop fpC3 fdC3 [] [] [urlA] 0 []
      [((0 : ℚ), "Discovering pages...".toList)] 0 = crawlC3 :=
    crawlFuel_sound fpC3 fdC3 [] 5 _ _ _ _ _ _ _ rfl
  have e0 : innerValue 0 = 5 := by norm_num [innerValue]
  have e1 : innerValue (progressOf 1 0) = 75 := by
    norm_num [innerValue, progressOf]
  have e2 : innerValue (progressOf 2 1) = 51 := by
    norm_num [innerValue, progressOf, Int.floor_eq_iff]
  have e3 : innerValue (progressOf 3 0) = 75 := by
    norm_num [innerValue, progressOf]
  have e4 : innerValue (100 : ℚ) = 75 := by norm_num [innerValue]
  simp only [streamEvents, fetchVaultData, hc, crawlC3, List.cons_append,
    List.nil_append, List.map_cons, List.map_append, List.map_nil,
    List.length_cons, e0, e1, e2, e3, e4]
  norm_num [progressValues, nonDecreasing]

/-! ## C8: determinism of the archive builder up to timestamps -/

theorem joinSep_cons_cons (sep x y : JStr) (rest : List JStr) :
    joinSep sep (x :: y :: rest) = x ++ sep ++ joinSep sep (y :: rest) := rfl

/-- The serialised manifest up to the opening quote of the
`download_date` value; independent of the timestamp. -/
def metaHead (vaultId : JStr) : JStr :=
  "\x7b\n".toList
  ++ (jsonIndent 1 ++ ('"' :: (jsonEscape "vault_id".toList ++ "\": ".toList))
      ++ jsonStr 1 (.jstr vaultId))
  ++ ",\n".toList
  ++ (jsonIndent 1
      ++ ('"' :: (jsonEscape "download_date".toList ++ "\": ".toList)))
  ++ ['"']

/-- The serialised manifest from the closing quote of the `download_date`
value on; independent of the timestamp. -/
def metaTail (vd : List (JStr × PageRec)) : JStr :=
  ['"'] ++ ",\n".toList
  ++ joinSep ",\n".toList (jsonObj 1
      [("total_pages".toList, .jnat vd.length),
       ("downloader".toList, .jstr "ObsidianDownloader/1.0".toList),
       ("source".toList, .jstr "https://obsidian.strahil.dev".toList),
       ("notice".toList, .jstr "This archive was created for personal/offline use only. Please respect copyright and licensing.".toList),
       ("pages".toList, .jarr (vd.map pageMetaJ))])
  ++ "\n".toList ++ jsonIndent 0 ++ "\x7d".toList

theorem metadata_splice (vd : List (JStr × PageRec)) (vaultId t : JStr) :
    jsonStr 0 (metadataJ vd vaultId t)
      = metaHead vaultId ++ jsonEscape t ++ metaTail vd := by
  simp only [metadataJ, metaHead, metaTail, jsonStr, jsonObj,
    joinSep_cons_cons, List.append_assoc, List.cons_append, List.nil_append]

/-- C8.  Two runs of the archive builder on the same page collection and
vault id differ only at the embedded timestamp: the entry names, the zip
comment and every page entry are byte-identical, and the manifest and
README bodies each decompose as fixed bytes ++ timestamp ++ fixed bytes,
with the fixed parts depending only on the pages and the vault id. -/
theorem claimC8 (vd : List (JStr × PageRec)) (vaultId : JStr) (t1 t2 : JStr) :
    ((createArchive vd vaultId t1).entries.map Prod.fst
      = (createArchive vd vaultId t2).entries.map Prod.fst) ∧
    ((createArchive vd vaultId t1).comment
      = (createArchive vd vaultId t2).comment) ∧
    ((createArchive vd vaultId t1).entries.drop 2
      = (createArchive vd vaultId t2).entries.drop 2) ∧
    (∀ t : JStr, (createArchive vd vaultId t).entries.get? 0
      = some ("vault-metadata.json".toList,
          metaHead vaultId ++ jsonEscape t ++ metaTail vd)) ∧
    (∀ t : JStr, (createArchive vd vaultId t).entries.get? 1
      = some ("README.md".toList,
          (readmeHead ++ natToStr vd.length ++ readmeMid) ++ t ++ readmeTail)) := by
  refine ⟨by simp [createArchive], rfl, by simp [createArchive], ?_, ?_⟩
  · intro t
    simp only [createArchive, List.get?_cons_zero, metadata_splice]
  · intro t
    simp only [createArchive, List.get?_cons_succ, List.get?_cons_zero,
      readmeText, List.append_assoc]
